import Mathlib

set_option maxHeartbeats 1000000

/-!
Verification of the absorption-detection strategies in `orderly_edge`.

Two strategy variants are embedded:
* the simple variant `AbsorptionStrategy` (src/nautilus_trader/strategies/absorption.py),
  here suffixed `_simple`;
* the liquidity-filtered variant `EnhancedAbsorptionStrategy` (src/edges/absorption.py),
  here suffixed `_enhanced`.

Prices and quantities are modelled as rationals; Python `dict`s (which preserve
insertion order) are modelled as insertion-ordered association lists.
-/

namespace OrderlyEdge

/-- A price-to-quantity mapping: a Python `dict` modelled as an insertion-ordered
association list. -/
abbrev Dict := List (ℚ × ℚ)

/-- Model of `d[p]` and `p in d` on a Python dict: the value at the first matching
key, if any. -/
def lookup : Dict → ℚ → Option ℚ
  | [], _ => none
  | e :: t, p => if e.1 = p then some e.2 else lookup t p

/-- Model of the assignment `d[k] = v` on a Python dict: replace the value at an
existing key in place, otherwise append the new pair at the end. -/
def dictInsert : Dict → ℚ → ℚ → Dict
  | [], k, v => [(k, v)]
  | e :: t, k, v => if e.1 = k then (k, v) :: t else e :: dictInsert t k v

/-- A resting order in an L3 book level, exposing `order.price` and `order.size`. -/
structure BookOrder where
  price : ℚ
  size : ℚ
deriving DecidableEq

/-- One ranked price level of the book, exposing `level.price` and `level.orders()`. -/
structure BookLevel where
  price : ℚ
  orders : List BookOrder
deriving DecidableEq

/-- The queryable order book: ranked bid and ask levels, best first. -/
structure Book where
  bids : List BookLevel
  asks : List BookLevel
deriving DecidableEq

/-- Model of `book.best_bid_price()`: the price of the top bid level, if any. -/
def Book.best_bid_price (b : Book) : Option ℚ := b.bids.head?.map (fun lv => lv.price)

/-- Model of `book.best_ask_price()`: the price of the top ask level, if any. -/
def Book.best_ask_price (b : Book) : Option ℚ := b.asks.head?.map (fun lv => lv.price)

/-- Total resting size at a level: the sum of its constituent order sizes. -/
def levelTotalSize (level : BookLevel) : ℚ := (level.orders.map (fun o => o.size)).sum

/-- Model of `AbsorptionStrategy._extract_levels`: for each level, each resting
order performs `result[order.price] = order.size` — a later order at the same
price overwrites an earlier one. -/
def extract_levels_simple (levels : List BookLevel) : Dict :=
  levels.foldl (fun result level =>
    level.orders.foldl (fun r o => dictInsert r o.price o.size) result) []

/-- Model of `EnhancedAbsorptionStrategy._extract_levels`: for each level,
`result[level.price]` is set to the sum of all order sizes at that level. -/
def extract_levels_enhanced (levels : List BookLevel) : Dict :=
  levels.foldl (fun result level => dictInsert result level.price (levelTotalSize level)) []

/-- One side of `EnhancedAbsorptionStrategy.identify_liquidity_areas`: scan the top
`monitor_levels` levels and append the prices whose total size strictly exceeds
`liquidity_threshold`. -/
def identify_areas (levels : List BookLevel) (monitor_levels : ℕ)
    (liquidity_threshold : ℚ) : List ℚ :=
  (levels.take monitor_levels).foldl (fun acc level =>
    if liquidity_threshold < levelTotalSize level then acc ++ [level.price] else acc) []

/-- The loop body of `AbsorptionStrategy._calculate_absorption`, processing one
entry of the previous snapshot: a shrunken level adds its decrease; a vanished
level adds its full previous size unless some price absent from the previous
snapshot has appeared in the current snapshot above it. -/
def absorption_step (prev_levels current_levels : Dict) (absorption_volume : ℚ)
    (e : ℚ × ℚ) : ℚ :=
  match lookup current_levels e.1 with
  | some cur =>
      if cur < e.2 then absorption_volume + (e.2 - cur) else absorption_volume
  | none =>
      if current_levels.any (fun c => decide (lookup prev_levels c.1 = none) && decide (e.1 < c.1))
      then absorption_volume
      else absorption_volume + e.2

/-- Model of `AbsorptionStrategy._calculate_absorption`: fold `absorption_step`
over the previous snapshot's entries. -/
def calculate_absorption (prev_levels current_levels : Dict) : ℚ :=
  prev_levels.foldl (absorption_step prev_levels current_levels) 0

/-- The loop body of `EnhancedAbsorptionStrategy._calculate_liquidity_absorption`,
processing one liquidity-area price: prices absent from the previous snapshot are
skipped; a shrunken level adds its decrease and a vanished level adds its full
previous size, each recording the price as affected. -/
def liquidity_absorption_step (prev_levels current_levels : Dict)
    (acc : ℚ × List ℚ) (price : ℚ) : ℚ × List ℚ :=
  match lookup prev_levels price with
  | none => acc
  | some prev_size =>
    match lookup current_levels price with
    | some cur =>
        if cur < prev_size then (acc.1 + (prev_size - cur), acc.2 ++ [price]) else acc
    | none => (acc.1 + prev_size, acc.2 ++ [price])

/-- Model of `EnhancedAbsorptionStrategy._calculate_liquidity_absorption`: fold
`liquidity_absorption_step` over the liquidity-area list. -/
def calculate_liquidity_absorption (prev_levels current_levels : Dict)
    (liquidity_areas : List ℚ) : ℚ × List ℚ :=
  liquidity_areas.foldl (liquidity_absorption_step prev_levels current_levels) (0, [])

/-- Configuration of the simple variant (`AbsorptionConfig`), restricted to the
fields the evaluation path reads. -/
structure AbsorptionConfig where
  min_absorption_volume : ℚ
  monitor_levels : ℕ
  cooldown_period_seconds : ℚ
  trade_pct_of_absorption : ℚ
  max_trade_size : ℚ
deriving DecidableEq

/-- Configuration of the liquidity-filtered variant (`EnhancedAbsorptionConfig`),
restricted to the fields the evaluation path reads. -/
structure EnhancedAbsorptionConfig where
  min_absorption_volume : ℚ
  liquidity_threshold : ℚ
  monitor_levels : ℕ
  cooldown_period_seconds : ℚ
  trade_size : ℚ
deriving DecidableEq

inductive OrderSide where
  | BUY
  | SELL
deriving DecidableEq

/-- One outbound order submission: side, limit price and quantity of a
fill-or-kill limit order. -/
structure OrderIntent where
  side : OrderSide
  price : ℚ
  quantity : ℚ
deriving DecidableEq

/-- One record appended to `EnhancedAbsorptionStrategy._absorption_events`. -/
structure AbsorptionEvent where
  timestamp : ℚ
  bid_absorption : ℚ
  bid_prices : List ℚ
  ask_absorption : ℚ
  ask_prices : List ℚ
deriving DecidableEq

/-- Mutable state of `AbsorptionStrategy` touched by the evaluation path.
`last_trade_timestamp` is in seconds. -/
structure SimpleState where
  prev_bid_levels : Dict
  prev_ask_levels : Dict
  last_trade_timestamp : ℚ
deriving DecidableEq

/-- Mutable state of `EnhancedAbsorptionStrategy` touched by the evaluation path.
`last_trade_timestamp` is in seconds; `last_check_time` is an event timestamp in
nanoseconds. -/
structure EnhancedState where
  prev_bid_levels : Dict
  prev_ask_levels : Dict
  bid_liquidity_areas : List ℚ
  ask_liquidity_areas : List ℚ
  last_trade_timestamp : ℚ
  absorption_events : List AbsorptionEvent
  trades_taken : ℕ
  last_check_time : Option ℤ
deriving DecidableEq

/-- Model of `AbsorptionStrategy._check_and_act_on_absorption`: cooldown gate,
then the dominance test with factor 2 and percentage sizing
`min(volume * trade_pct_of_absorption, max_trade_size)`. Returns the updated
state and the orders submitted in this evaluation. -/
def check_and_act_simple (cfg : AbsorptionConfig) (st : SimpleState) (now : ℚ)
    (bid_absorption ask_absorption : ℚ) (book : Book) :
    SimpleState × List OrderIntent :=
  if now - st.last_trade_timestamp < cfg.cooldown_period_seconds then (st, [])
  else if cfg.min_absorption_volume < bid_absorption ∧ ask_absorption * 2 < bid_absorption then
    match book.best_bid_price with
    | some best_bid =>
        let trade_qty := min (bid_absorption * cfg.trade_pct_of_absorption) cfg.max_trade_size
        ({ st with last_trade_timestamp := now },
         [⟨OrderSide.SELL, best_bid, trade_qty⟩])
    | none => (st, [])
  else if cfg.min_absorption_volume < ask_absorption ∧ bid_absorption * 2 < ask_absorption then
    match book.best_ask_price with
    | some best_ask =>
        let trade_qty := min (ask_absorption * cfg.trade_pct_of_absorption) cfg.max_trade_size
        ({ st with last_trade_timestamp := now },
         [⟨OrderSide.BUY, best_ask, trade_qty⟩])
    | none => (st, [])
  else (st, [])

/-- Model of `EnhancedAbsorptionStrategy._check_and_act_on_absorption`: cooldown
gate, then (always) one absorption-event record, then the dominance test with
factor 1.5 and fixed sizing `trade_size`. -/
def check_and_act_enhanced (cfg : EnhancedAbsorptionConfig) (st : EnhancedState)
    (now : ℚ) (bid_absorption ask_absorption : ℚ × List ℚ) (book : Book) :
    EnhancedState × List OrderIntent :=
  if now - st.last_trade_timestamp < cfg.cooldown_period_seconds then (st, [])
  else
    let st1 := { st with absorption_events := st.absorption_events ++
        [⟨now, bid_absorption.1, bid_absorption.2, ask_absorption.1, ask_absorption.2⟩] }
    if cfg.min_absorption_volume < bid_absorption.1 ∧
        ask_absorption.1 * (3 / 2) < bid_absorption.1 then
      match book.best_bid_price with
      | some best_bid =>
          ({ st1 with last_trade_timestamp := now, trades_taken := st1.trades_taken + 1 },
           [⟨OrderSide.SELL, best_bid, cfg.trade_size⟩])
      | none => (st1, [])
    else if cfg.min_absorption_volume < ask_absorption.1 ∧
        bid_absorption.1 * (3 / 2) < ask_absorption.1 then
      match book.best_ask_price with
      | some best_ask =>
          ({ st1 with last_trade_timestamp := now, trades_taken := st1.trades_taken + 1 },
           [⟨OrderSide.BUY, best_ask, cfg.trade_size⟩])
      | none => (st1, [])
    else (st1, [])

/-- Model of `AbsorptionStrategy.check_for_absorption`: guard on a present and
two-sided book, extract the top `monitor_levels` levels per side, act on the
comparison with the previous snapshots when both are nonempty, then replace the
previous snapshots with the current ones. -/
def check_for_absorption_simple (cfg : AbsorptionConfig) (st : SimpleState)
    (book : Option Book) (now : ℚ) : SimpleState × List OrderIntent :=
  match book with
  | none => (st, [])
  | some b =>
    if b.bids = [] ∨ b.asks = [] then (st, [])
    else
      let current_bid_levels := extract_levels_simple (b.bids.take cfg.monitor_levels)
      let current_ask_levels := extract_levels_simple (b.asks.take cfg.monitor_levels)
      let acted :=
        if st.prev_bid_levels ≠ [] ∧ st.prev_ask_levels ≠ [] then
          check_and_act_simple cfg st now
            (calculate_absorption st.prev_bid_levels current_bid_levels)
            (calculate_absorption st.prev_ask_levels current_ask_levels) b
        else (st, [])
      ({ acted.1 with prev_bid_levels := current_bid_levels,
                      prev_ask_levels := current_ask_levels }, acted.2)

/-- Model of `EnhancedAbsorptionStrategy.check_for_absorption`: as the simple
variant, but the absorption calculation is filtered through the current
liquidity-area lists held in the state. -/
def check_for_absorption_enhanced (cfg : EnhancedAbsorptionConfig)
    (st : EnhancedState) (book : Option Book) (now : ℚ) :
    EnhancedState × List OrderIntent :=
  match book with
  | none => (st, [])
  | some b =>
    if b.bids = [] ∨ b.asks = [] then (st, [])
    else
      let current_bid_levels := extract_levels_enhanced (b.bids.take cfg.monitor_levels)
      let current_ask_levels := extract_levels_enhanced (b.asks.take cfg.monitor_levels)
      let acted :=
        if st.prev_bid_levels ≠ [] ∧ st.prev_ask_levels ≠ [] then
          check_and_act_enhanced cfg st now
            (calculate_liquidity_absorption st.prev_bid_levels current_bid_levels
              st.bid_liquidity_areas)
            (calculate_liquidity_absorption st.prev_ask_levels current_ask_levels
              st.ask_liquidity_areas) b
        else (st, [])
      ({ acted.1 with prev_bid_levels := current_bid_levels,
                      prev_ask_levels := current_ask_levels }, acted.2)

/-- Model of `EnhancedAbsorptionStrategy.identify_liquidity_areas`: with a present
and two-sided book, replace both liquidity-area lists from the current top
levels; otherwise leave the state untouched. -/
def identify_liquidity_areas (cfg : EnhancedAbsorptionConfig) (st : EnhancedState)
    (book : Option Book) : EnhancedState :=
  match book with
  | none => st
  | some b =>
    if b.bids = [] ∨ b.asks = [] then st
    else
      { st with
        bid_liquidity_areas := identify_areas b.bids cfg.monitor_levels cfg.liquidity_threshold,
        ask_liquidity_areas := identify_areas b.asks cfg.monitor_levels cfg.liquidity_threshold }

/-- Model of `AbsorptionStrategy.on_order_book_deltas`: every inbound delta event
runs `check_for_absorption` unconditionally (the delta batch itself is unused).
The Boolean records whether an evaluation cycle ran. -/
def on_order_book_deltas_simple (cfg : AbsorptionConfig) (st : SimpleState)
    (_delta_ts : List ℤ) (book : Option Book) (now : ℚ) :
    SimpleState × List OrderIntent × Bool :=
  let r := check_for_absorption_simple cfg st book now
  (r.1, r.2, true)

/-- Model of `EnhancedAbsorptionStrategy.on_order_book_deltas`: with a nonempty
delta batch, run a full evaluation cycle (liquidity identification, then the
absorption check) only when at least `1_000_000_000` nanoseconds of event time
have passed since the last recorded check, then record this event time. The
Boolean records whether an evaluation cycle ran. -/
def on_order_book_deltas_enhanced (cfg : EnhancedAbsorptionConfig)
    (st : EnhancedState) (delta_ts : List ℤ) (book : Option Book) (now : ℚ) :
    EnhancedState × List OrderIntent × Bool :=
  match delta_ts.head? with
  | none => (st, [], false)
  | some current_event_time =>
    let due := match st.last_check_time with
      | none => true
      | some last => decide (1000000000 ≤ current_event_time - last)
    if due then
      let st1 := identify_liquidity_areas cfg st book
      let r := check_for_absorption_enhanced cfg st1 book now
      ({ r.1 with last_check_time := some current_event_time }, r.2, true)
    else (st, [], false)

/-! Specification-side characterizations of the two absorption calculators,
used to compare the folds above against the per-price rules stated in the spec. -/

/-- Per-entry contribution to the unfiltered absorption volume, read off the
spec's per-candidate-price rule. -/
def contribution_simple (prev_levels current_levels : Dict) (e : ℚ × ℚ) : ℚ :=
  match lookup current_levels e.1 with
  | some cur => if cur < e.2 then e.2 - cur else 0
  | none =>
      if current_levels.any (fun c => decide (lookup prev_levels c.1 = none) && decide (e.1 < c.1))
      then 0
      else e.2

/-- Per-price contribution to the filtered absorption volume, read off the
spec's per-candidate-price rule. -/
def contribution_filtered (prev_levels current_levels : Dict) (price : ℚ) : ℚ :=
  match lookup prev_levels price with
  | none => 0
  | some prev_size =>
    match lookup current_levels price with
    | some cur => if cur < prev_size then prev_size - cur else 0
    | none => prev_size

/-- Whether the filtered calculator records a liquidity-area price as affected. -/
def affected_filtered (prev_levels current_levels : Dict) (price : ℚ) : Bool :=
  match lookup prev_levels price with
  | none => false
  | some prev_size =>
    match lookup current_levels price with
    | some cur => decide (cur < prev_size)
    | none => true

theorem absorption_step_eq (prev cur : Dict) (v : ℚ) (e : ℚ × ℚ) :
    absorption_step prev cur v e = v + contribution_simple prev cur e := by
  unfold absorption_step contribution_simple
  cases lookup cur e.1 <;> dsimp only <;> split_ifs <;> ring

theorem calculate_absorption_foldl (prev cur : Dict) (l : Dict) :
    ∀ v : ℚ, l.foldl (absorption_step prev cur) v
      = v + (l.map (contribution_simple prev cur)).sum := by
  induction l with
  | nil => intro v; simp
  | cons e t ih =>
      intro v
      rw [List.foldl_cons, absorption_step_eq, ih]
      simp [add_assoc]

/-- The unfiltered absorption volume is the sum of the per-entry contributions. -/
theorem calculate_absorption_eq_sum (prev cur : Dict) :
    calculate_absorption prev cur = (prev.map (contribution_simple prev cur)).sum := by
  unfold calculate_absorption
  rw [calculate_absorption_foldl]
  ring

theorem liquidity_absorption_step_eq (prev cur : Dict) (acc : ℚ × List ℚ) (p : ℚ) :
    liquidity_absorption_step prev cur acc p =
      (acc.1 + contribution_filtered prev cur p,
       acc.2 ++ if affected_filtered prev cur p then [p] else []) := by
  obtain ⟨a, ps⟩ := acc
  unfold liquidity_absorption_step contribution_filtered affected_filtered
  cases hp : lookup prev p with
  | none => simp
  | some pv =>
      cases hc : lookup cur p with
      | some c => dsimp only; by_cases h : c < pv <;> simp [h]
      | none => simp

theorem calculate_liquidity_absorption_foldl (prev cur : Dict) (l : List ℚ) :
    ∀ (a : ℚ) (ps : List ℚ),
      l.foldl (liquidity_absorption_step prev cur) (a, ps)
        = (a + (l.map (contribution_filtered prev cur)).sum,
           ps ++ l.filter (fun p => affected_filtered prev cur p)) := by
  induction l with
  | nil => intro a ps; simp
  | cons p t ih =>
      intro a ps
      rw [List.foldl_cons, liquidity_absorption_step_eq, ih]
      by_cases h : affected_filtered prev cur p <;>
        simp [h, List.filter_cons, add_assoc]

/-- The filtered absorption result is the contribution sum together with the
affected-price filter of the liquidity-area list. -/
theorem calculate_liquidity_absorption_eq (prev cur : Dict) (areas : List ℚ) :
    calculate_liquidity_absorption prev cur areas
      = ((areas.map (contribution_filtered prev cur)).sum,
         areas.filter (fun p => affected_filtered prev cur p)) := by
  unfold calculate_liquidity_absorption
  rw [calculate_liquidity_absorption_foldl]
  simp

/-! Association-list (Python dict) lemmas. -/

theorem lookup_dictInsert (d : Dict) (k v k' : ℚ) :
    lookup (dictInsert d k v) k' = if k' = k then some v else lookup d k' := by
  induction d with
  | nil =>
      by_cases h : k' = k
      · simp [dictInsert, lookup, h]
      · have h2 : ¬ k = k' := fun hh => h hh.symm
        simp [dictInsert, lookup, h, h2]
  | cons e t ih =>
      by_cases he : e.1 = k
      · by_cases hk : k' = k
        · simp [dictInsert, he, lookup, hk]
        · have hk2 : ¬ k = k' := fun hh => hk hh.symm
          have he2 : ¬ e.1 = k' := by rw [he]; exact hk2
          simp [dictInsert, he, lookup, hk, hk2, he2]
      · by_cases hek : e.1 = k'
        · have hne : ¬ k' = k := fun hh => he (by rw [hek, hh])
          simp [dictInsert, he, lookup, hek, hne]
        · simp [dictInsert, he, lookup, hek, ih]

theorem dictInsert_dictInsert (d : Dict) (k v1 v2 : ℚ) :
    dictInsert (dictInsert d k v1) k v2 = dictInsert d k v2 := by
  induction d with
  | nil => simp [dictInsert]
  | cons e t ih => by_cases he : e.1 = k <;> simp [dictInsert, he, ih]

theorem dictInsert_of_lookup_none (d : Dict) (k v : ℚ) (h : lookup d k = none) :
    dictInsert d k v = d ++ [(k, v)] := by
  induction d with
  | nil => simp [dictInsert]
  | cons e t ih =>
      unfold lookup at h
      by_cases he : e.1 = k
      · simp [he] at h
      · rw [if_neg he] at h
        simp [dictInsert, he, ih h]

theorem lookup_append_right (d1 d2 : Dict) (p : ℚ) (h : lookup d1 p = none) :
    lookup (d1 ++ d2) p = lookup d2 p := by
  induction d1 with
  | nil => simp
  | cons e t ih =>
      unfold lookup at h
      by_cases he : e.1 = p
      · simp [he] at h
      · rw [if_neg he] at h
        simp [lookup, he, ih h]

theorem lookup_mem (d : Dict) (p v : ℚ) (h : lookup d p = some v) : (p, v) ∈ d := by
  induction d with
  | nil => simp [lookup] at h
  | cons e t ih =>
      unfold lookup at h
      by_cases he : e.1 = p
      · rw [if_pos he] at h
        injection h with h2
        have hev : e = (p, v) := by
          obtain ⟨e1, e2⟩ := e
          simp only at he h2
          rw [he, h2]
        rw [← hev]
        exact List.mem_cons_self e t
      · rw [if_neg he] at h
        exact List.mem_cons_of_mem _ (ih h)

theorem lookup_eq_of_mem (d : Dict) (hn : (d.map Prod.fst).Nodup) (p v : ℚ)
    (h : (p, v) ∈ d) : lookup d p = some v := by
  induction d with
  | nil => simp at h
  | cons e t ih =>
      rw [List.map_cons, List.nodup_cons] at hn
      rcases List.mem_cons.mp h with h1 | h1
      · rw [← h1]; simp [lookup]
      · have hne : ¬ e.1 = p := by
          intro hh
          exact hn.1 (hh ▸ (List.mem_map.mpr ⟨(p, v), h1, rfl⟩))
        simp [lookup, hne, ih hn.2 h1]

theorem lookup_none_of_not_mem_keys (d : Dict) (p : ℚ)
    (h : p ∉ d.map Prod.fst) : lookup d p = none := by
  induction d with
  | nil => rfl
  | cons e t ih =>
      rw [List.map_cons, List.mem_cons] at h
      push_neg at h
      have hne : ¬ e.1 = p := fun hh => h.1 hh.symm
      simp [lookup, hne, ih h.2]

/-! Extractor lemmas. -/

theorem extract_enhanced_go (levels : List BookLevel) :
    ∀ acc : Dict,
      (∀ lv ∈ levels, lookup acc lv.price = none) →
      (levels.map (fun lv => lv.price)).Nodup →
      levels.foldl (fun result level => dictInsert result level.price (levelTotalSize level)) acc
        = acc ++ levels.map (fun lv => (lv.price, levelTotalSize lv)) := by
  induction levels with
  | nil => intro acc _ _; simp
  | cons lv t ih =>
      intro acc hd hn
      rw [List.map_cons, List.nodup_cons] at hn
      rw [List.foldl_cons,
        dictInsert_of_lookup_none _ _ _ (hd lv (List.mem_cons_self _ _))]
      have hfresh : ∀ lv' ∈ t, lookup (acc ++ [(lv.price, levelTotalSize lv)]) lv'.price = none := by
        intro lv' hlv'
        rw [lookup_append_right _ _ _ (hd lv' (List.mem_cons_of_mem _ hlv'))]
        have hmem : lv'.price ∈ List.map (fun l => l.price) t :=
          List.mem_map.mpr ⟨lv', hlv', rfl⟩
        have hne : ¬ lv.price = lv'.price := fun hh => hn.1 (hh.symm ▸ hmem)
        simp [lookup, hne]
      rw [ih _ hfresh hn.2]
      simp

/-- Under distinct level prices, the enhanced extractor is exactly the in-order
list of (price, total size) pairs: no level is dropped or reordered. -/
theorem extract_levels_enhanced_eq (levels : List BookLevel)
    (hn : (levels.map (fun lv => lv.price)).Nodup) :
    extract_levels_enhanced levels
      = levels.map (fun lv => (lv.price, levelTotalSize lv)) := by
  unfold extract_levels_enhanced
  rw [extract_enhanced_go levels [] (fun _ _ => rfl) hn]
  simp

theorem extract_levels_enhanced_lookup (levels : List BookLevel)
    (hn : (levels.map (fun lv => lv.price)).Nodup) (lv : BookLevel) (h : lv ∈ levels) :
    lookup (extract_levels_enhanced levels) lv.price = some (levelTotalSize lv) := by
  rw [extract_levels_enhanced_eq levels hn]
  apply lookup_eq_of_mem
  · simpa [List.map_map, Function.comp_def] using hn
  · exact List.mem_map.mpr ⟨lv, h, rfl⟩

theorem fold_orders_getLast (p : ℚ) (orders : List BookOrder) :
    ∀ acc : Dict, (∀ o ∈ orders, o.price = p) →
      orders.foldl (fun r o => dictInsert r o.price o.size) acc
        = match orders.getLast? with
          | none => acc
          | some o => dictInsert acc p o.size := by
  induction orders with
  | nil => intro acc _; simp
  | cons o t ih =>
      intro acc h
      rw [List.foldl_cons]
      cases t with
      | nil => simp [h o (List.mem_cons_self _ _)]
      | cons o2 t2 =>
          rw [ih (dictInsert acc o.price o.size)
            (fun o' ho' => h o' (List.mem_cons_of_mem _ ho'))]
          rw [List.getLast?_cons_cons]
          cases hg : (o2 :: t2).getLast? with
          | none => exact absurd (List.getLast?_eq_none_iff.mp hg) (by simp)
          | some o3 => simp [hg, h o (List.mem_cons_self _ _), dictInsert_dictInsert]

theorem extract_simple_go (levels : List BookLevel) :
    ∀ acc : Dict,
      (∀ lv ∈ levels, ∀ o ∈ lv.orders, o.price = lv.price) →
      (levels.map (fun lv => lv.price)).Nodup →
      (∀ lv ∈ levels, lookup acc lv.price = none) →
      levels.foldl (fun result level =>
          level.orders.foldl (fun r o => dictInsert r o.price o.size) result) acc
        = acc ++ levels.filterMap
            (fun lv => lv.orders.getLast?.map (fun o => (lv.price, o.size))) := by
  induction levels with
  | nil => intro acc _ _ _; simp
  | cons lv t ih =>
      intro acc hcoh hn hd
      rw [List.map_cons, List.nodup_cons] at hn
      rw [List.foldl_cons, fold_orders_getLast lv.price lv.orders acc
        (hcoh lv (List.mem_cons_self _ _))]
      have hcoh2 : ∀ l ∈ t, ∀ o ∈ l.orders, o.price = l.price :=
        fun l hl => hcoh l (List.mem_cons_of_mem _ hl)
      cases hg : lv.orders.getLast? with
      | none =>
          rw [ih acc hcoh2 hn.2 (fun l hl => hd l (List.mem_cons_of_mem _ hl))]
          simp [List.filterMap_cons, hg]
      | some o =>
          dsimp only
          rw [dictInsert_of_lookup_none _ _ _ (hd lv (List.mem_cons_self _ _))]
          have hfresh : ∀ l ∈ t, lookup (acc ++ [(lv.price, o.size)]) l.price = none := by
            intro l hl
            rw [lookup_append_right _ _ _ (hd l (List.mem_cons_of_mem _ hl))]
            have hmem : l.price ∈ List.map (fun x => x.price) t :=
              List.mem_map.mpr ⟨l, hl, rfl⟩
            have hne : ¬ lv.price = l.price := fun hh => hn.1 (hh.symm ▸ hmem)
            simp [lookup, hne]
          rw [ih _ hcoh2 hn.2 hfresh]
          simp [List.filterMap_cons, hg]

theorem keys_filterMap_last_subset (t : List BookLevel) (p : ℚ)
    (hp : p ∈ (t.filterMap
        (fun l => l.orders.getLast?.map (fun o => (l.price, o.size)))).map Prod.fst) :
    p ∈ t.map (fun lv => lv.price) := by
  rw [List.mem_map] at hp
  obtain ⟨e, he, hfst⟩ := hp
  rw [List.mem_filterMap] at he
  obtain ⟨l, hl, hfl⟩ := he
  obtain ⟨o, _, hfo⟩ := Option.map_eq_some'.mp hfl
  refine List.mem_map.mpr ⟨l, hl, ?_⟩
  rw [← hfst, ← hfo]

theorem lookup_filterMap_last (levels : List BookLevel)
    (hn : (levels.map (fun lv => lv.price)).Nodup) (lv : BookLevel) (h : lv ∈ levels) :
    lookup (levels.filterMap
        (fun l => l.orders.getLast?.map (fun o => (l.price, o.size)))) lv.price
      = lv.orders.getLast?.map (fun o => o.size) := by
  induction levels with
  | nil => simp at h
  | cons a t ih =>
      rw [List.map_cons, List.nodup_cons] at hn
      rcases List.mem_cons.mp h with h1 | h1
      · subst h1
        cases hg : lv.orders.getLast? with
        | none =>
            simp only [List.filterMap_cons, hg, Option.map_none']
            exact lookup_none_of_not_mem_keys _ _
              (fun hmem => hn.1 (keys_filterMap_last_subset t lv.price hmem))
        | some o => simp [List.filterMap_cons, hg, lookup]
      · have hmem : lv.price ∈ List.map (fun l => l.price) t :=
          List.mem_map.mpr ⟨lv, h1, rfl⟩
        have hne : ¬ a.price = lv.price := fun hh => hn.1 (hh.symm ▸ hmem)
        cases hg : a.orders.getLast? with
        | none => simp [List.filterMap_cons, hg, ih hn.2 h1]
        | some o => simp [List.filterMap_cons, hg, lookup, hne, ih hn.2 h1]

/-- Under distinct level prices and with each order carrying its level's price,
the simple extractor records at each level's price the size of the LAST resting
order at that level (not the sum of all order sizes). -/
theorem extract_levels_simple_lookup (levels : List BookLevel)
    (hcoh : ∀ lv ∈ levels, ∀ o ∈ lv.orders, o.price = lv.price)
    (hn : (levels.map (fun lv => lv.price)).Nodup)
    (lv : BookLevel) (h : lv ∈ levels) :
    lookup (extract_levels_simple levels) lv.price
      = lv.orders.getLast?.map (fun o => o.size) := by
  unfold extract_levels_simple
  rw [extract_simple_go levels [] hcoh hn (fun _ _ => rfl)]
  rw [List.nil_append]
  exact lookup_filterMap_last levels hn lv h

/-! Liquidity-area identification lemmas. -/

theorem identify_areas_go (t : ℚ) (l : List BookLevel) :
    ∀ acc : List ℚ,
      l.foldl (fun acc level =>
          if t < levelTotalSize level then acc ++ [level.price] else acc) acc
        = acc ++ (l.filter (fun lv => decide (t < levelTotalSize lv))).map
            (fun lv => lv.price) := by
  induction l with
  | nil => intro acc; simp
  | cons a l2 ih =>
      intro acc
      rw [List.foldl_cons]
      by_cases h : t < levelTotalSize a <;> simp [List.filter_cons, h, ih]

/-- The liquidity-area list is the in-order filter of the top monitored levels
by the strict threshold test. -/
theorem identify_areas_eq (levels : List BookLevel) (m : ℕ) (t : ℚ) :
    identify_areas levels m t
      = ((levels.take m).filter (fun lv => decide (t < levelTotalSize lv))).map
          (fun lv => lv.price) := by
  unfold identify_areas
  rw [identify_areas_go]
  simp

theorem identify_areas_mem (levels : List BookLevel) (m : ℕ) (t p : ℚ) :
    p ∈ identify_areas levels m t ↔
      ∃ lv ∈ levels.take m, lv.price = p ∧ t < levelTotalSize lv := by
  rw [identify_areas_eq]
  simp only [List.mem_map, List.mem_filter, decide_eq_true_eq]
  constructor
  · rintro ⟨a, ⟨h1, h2⟩, h3⟩
    exact ⟨a, h1, h3, h2⟩
  · rintro ⟨a, h1, h2, h3⟩
    exact ⟨a, ⟨h1, h3⟩, h2⟩

/-! Nonnegativity of the per-price contributions. -/

theorem contribution_simple_nonneg (prev cur : Dict) (e : ℚ × ℚ)
    (he : e ∈ prev) (hnn : ∀ x ∈ prev, 0 ≤ x.2) :
    0 ≤ contribution_simple prev cur e := by
  unfold contribution_simple
  cases lookup cur e.1 with
  | some c =>
      dsimp only
      split_ifs with h
      · linarith
      · exact le_refl 0
  | none =>
      dsimp only
      split_ifs with h
      · exact le_refl 0
      · exact hnn e he

theorem contribution_filtered_nonneg (prev cur : Dict) (p : ℚ)
    (hnn : ∀ x ∈ prev, 0 ≤ x.2) :
    0 ≤ contribution_filtered prev cur p := by
  unfold contribution_filtered
  cases hp : lookup prev p with
  | none => exact le_refl 0
  | some pv =>
      have hpv : (0 : ℚ) ≤ pv := hnn (p, pv) (lookup_mem prev p pv hp)
      dsimp only
      cases lookup cur p with
      | some c =>
          dsimp only
          split_ifs with h
          · linarith
          · exact le_refl 0
      | none => exact hpv

/-! Claim theorems. -/

/-- C2: for a price present in the previous snapshot but absent from the current
one, the unfiltered calculator contributes the full previous quantity unless a
price new to the book has appeared above it, while the filtered calculator
contributes the full previous quantity unconditionally; each calculator's volume
is exactly the sum of these per-price contributions, and the two policies are
distinct (they disagree on a concrete repricing input). -/
theorem C2_disappearance_policy (prev cur : Dict) (areas : List ℚ) (p v : ℚ)
    (hp : lookup prev p = some v) (hc : lookup cur p = none) :
    contribution_simple prev cur (p, v)
      = (if cur.any (fun c => decide (lookup prev c.1 = none) && decide (p < c.1))
         then 0 else v)
    ∧ calculate_absorption prev cur = (prev.map (contribution_simple prev cur)).sum
    ∧ contribution_filtered prev cur p = v
    ∧ (calculate_liquidity_absorption prev cur areas).1
        = (areas.map (contribution_filtered prev cur)).sum
    ∧ calculate_absorption [(10, 5)] [(11, 3)] = 0
    ∧ (calculate_liquidity_absorption [(10, 5)] [(11, 3)] [10]).1 = 5 := by
  refine ⟨?_, ?_, ?_, ?_, ?_, ?_⟩
  · unfold contribution_simple
    simp only [hc]
  · exact calculate_absorption_eq_sum prev cur
  · unfold contribution_filtered
    simp only [hp, hc]
  · rw [calculate_liquidity_absorption_eq]
  · norm_num [calculate_absorption, absorption_step, lookup]
  · norm_num [calculate_liquidity_absorption, liquidity_absorption_step, lookup]

/-- Witness for C2 at a concrete disappeared price. -/
theorem C2_disappearance_policy_witness :
    contribution_simple [((10 : ℚ), (5 : ℚ))] [] (10, 5) = 5
    ∧ contribution_filtered [((10 : ℚ), (5 : ℚ))] [] 10 = 5 := by
  have h := C2_disappearance_policy [(10, 5)] [] [10] 10 5 (by decide) (by decide)
  refine ⟨?_, h.2.2.1⟩
  rw [h.1]
  simp

/-- C4: within the cooldown window the decision stage of either variant is a
no-op: the state is returned unchanged and no order is submitted, regardless of
the absorption volumes. -/
theorem C4_cooldown_no_order
    (cfgE : EnhancedAbsorptionConfig) (cfgS : AbsorptionConfig)
    (stE : EnhancedState) (stS : SimpleState) (now : ℚ)
    (bidE askE : ℚ × List ℚ) (bidS askS : ℚ) (bookE bookS : Book)
    (hE : now - stE.last_trade_timestamp < cfgE.cooldown_period_seconds)
    (hS : now - stS.last_trade_timestamp < cfgS.cooldown_period_seconds) :
    check_and_act_enhanced cfgE stE now bidE askE bookE = (stE, [])
    ∧ check_and_act_simple cfgS stS now bidS askS bookS = (stS, []) :=
  ⟨by unfold check_and_act_enhanced; rw [if_pos hE],
   by unfold check_and_act_simple; rw [if_pos hS]⟩

/-- Witness for C4: huge volumes, but only 5 of the 10 cooldown seconds have
elapsed, so nothing is submitted in either variant. -/
theorem C4_cooldown_no_order_witness :
    check_and_act_enhanced ⟨1, 20, 5, 10, 1⟩ ⟨[], [], [], [], 0, [], 0, none⟩ 5
        (1000, [100]) (0, []) ⟨[], []⟩ = (⟨[], [], [], [], 0, [], 0, none⟩, [])
    ∧ check_and_act_simple ⟨1, 3, 10, 1 / 10, 1000⟩ ⟨[], [], 0⟩ 5 1000 0 ⟨[], []⟩
        = (⟨[], [], 0⟩, []) :=
  C4_cooldown_no_order ⟨1, 20, 5, 10, 1⟩ ⟨1, 3, 10, 1 / 10, 1000⟩
    ⟨[], [], [], [], 0, [], 0, none⟩ ⟨[], [], 0⟩ 5 (1000, [100]) (0, []) 1000 0
    ⟨[], []⟩ ⟨[], []⟩ (by norm_num) (by norm_num)

/-- C5: a candidate price whose current quantity is at least its previous
quantity contributes 0 to either calculator's volume and is not recorded as
affected; with nonnegative previous quantities both volumes are nonnegative. -/
theorem C5_no_negative_absorption (prev cur : Dict) (areas : List ℚ) (p pv cv : ℚ)
    (hp : lookup prev p = some pv) (hc : lookup cur p = some cv) (hge : pv ≤ cv)
    (hnn : ∀ x ∈ prev, 0 ≤ x.2) :
    contribution_simple prev cur (p, pv) = 0
    ∧ contribution_filtered prev cur p = 0
    ∧ p ∉ (calculate_liquidity_absorption prev cur areas).2
    ∧ 0 ≤ calculate_absorption prev cur
    ∧ 0 ≤ (calculate_liquidity_absorption prev cur areas).1 := by
  refine ⟨?_, ?_, ?_, ?_, ?_⟩
  · unfold contribution_simple
    simp only [hc]
    rw [if_neg (not_lt.mpr hge)]
  · unfold contribution_filtered
    simp only [hp, hc]
    rw [if_neg (not_lt.mpr hge)]
  · rw [calculate_liquidity_absorption_eq]
    intro hmem
    have haff := (List.mem_filter.mp hmem).2
    unfold affected_filtered at haff
    rw [hp, hc] at haff
    exact absurd (of_decide_eq_true haff) (not_lt.mpr hge)
  · rw [calculate_absorption_eq_sum]
    apply List.sum_nonneg
    intro x hx
    obtain ⟨e, he, hex⟩ := List.mem_map.mp hx
    exact hex ▸ contribution_simple_nonneg prev cur e he hnn
  · rw [calculate_liquidity_absorption_eq]
    apply List.sum_nonneg
    intro x hx
    obtain ⟨q, _, hqx⟩ := List.mem_map.mp hx
    exact hqx ▸ contribution_filtered_nonneg prev cur q hnn

/-- Witness for C5: the level at price 10 grew from 7 to 9, so it contributes
nothing and the volume is nonnegative. -/
theorem C5_no_negative_absorption_witness :
    contribution_simple [((10 : ℚ), (7 : ℚ))] [((10 : ℚ), (9 : ℚ))] (10, 7) = 0
    ∧ 0 ≤ calculate_absorption [((10 : ℚ), (7 : ℚ))] [((10 : ℚ), (9 : ℚ))] := by
  have h := C5_no_negative_absorption [(10, 7)] [(10, 9)] [10] 10 7 9
    (by decide) (by decide) (by decide) (by decide)
  exact ⟨h.1, h.2.2.2.1⟩

/-- C9: in the liquidity-filtered variant, every decision-stage call that passes
the cooldown check appends exactly one absorption-event record carrying the
timestamp, both side volumes and both affected-price lists — whether or not an
order is submitted. -/
theorem C9_event_log_append
    (cfg : EnhancedAbsorptionConfig) (st : EnhancedState) (now : ℚ)
    (bid_absorption ask_absorption : ℚ × List ℚ) (book : Book)
    (hcool : ¬ now - st.last_trade_timestamp < cfg.cooldown_period_seconds) :
    (check_and_act_enhanced cfg st now bid_absorption ask_absorption book).1.absorption_events
      = st.absorption_events
        ++ [⟨now, bid_absorption.1, bid_absorption.2,
             ask_absorption.1, ask_absorption.2⟩] := by
  unfold check_and_act_enhanced
  rw [if_neg hcool]
  split_ifs <;> cases book.best_bid_price <;> cases book.best_ask_price <;> simp

/-- Witness for C9: zero volumes, no order, yet one event is appended. -/
theorem C9_event_log_append_witness :
    (check_and_act_enhanced ⟨1, 20, 5, 10, 1⟩ ⟨[], [], [], [], 0, [], 0, none⟩ 50
        (0, []) (0, []) ⟨[], []⟩).1.absorption_events
      = [⟨50, 0, [], 0, []⟩] := by
  have h := C9_event_log_append ⟨1, 20, 5, 10, 1⟩ ⟨[], [], [], [], 0, [], 0, none⟩ 50
    (0, []) (0, []) ⟨[], []⟩ (by norm_num)
  simpa using h

/-- C1: past the cooldown gate, each variant emits at most one intent per
evaluation: a SELL at the best bid when bid volume clears the minimum and
dominates the ask volume by the variant's factor (1.5 filtered, 2.0 unfiltered),
else a BUY at the best ask symmetrically, else nothing; no evaluation ever
emits two intents. -/
theorem C1_single_intent_selection
    (cfgE : EnhancedAbsorptionConfig) (cfgS : AbsorptionConfig)
    (stE : EnhancedState) (stS : SimpleState) (now : ℚ)
    (bid_volume ask_volume : ℚ) (bid_prices ask_prices : List ℚ)
    (book : Book) (bb ba : ℚ)
    (hcoolE : ¬ now - stE.last_trade_timestamp < cfgE.cooldown_period_seconds)
    (hcoolS : ¬ now - stS.last_trade_timestamp < cfgS.cooldown_period_seconds)
    (hbb : book.best_bid_price = some bb)
    (hba : book.best_ask_price = some ba) :
    ((check_and_act_enhanced cfgE stE now (bid_volume, bid_prices)
        (ask_volume, ask_prices) book).2
      = if cfgE.min_absorption_volume < bid_volume ∧ ask_volume * (3 / 2) < bid_volume then
          [⟨OrderSide.SELL, bb, cfgE.trade_size⟩]
        else if cfgE.min_absorption_volume < ask_volume ∧ bid_volume * (3 / 2) < ask_volume then
          [⟨OrderSide.BUY, ba, cfgE.trade_size⟩]
        else [])
    ∧ ((check_and_act_simple cfgS stS now bid_volume ask_volume book).2
      = if cfgS.min_absorption_volume < bid_volume ∧ ask_volume * 2 < bid_volume then
          [⟨OrderSide.SELL, bb,
            min (bid_volume * cfgS.trade_pct_of_absorption) cfgS.max_trade_size⟩]
        else if cfgS.min_absorption_volume < ask_volume ∧ bid_volume * 2 < ask_volume then
          [⟨OrderSide.BUY, ba,
            min (ask_volume * cfgS.trade_pct_of_absorption) cfgS.max_trade_size⟩]
        else [])
    ∧ (∀ (cfg : EnhancedAbsorptionConfig) (st : EnhancedState) (n : ℚ)
          (bv av : ℚ × List ℚ) (bk : Book),
        ((check_and_act_enhanced cfg st n bv av bk).2).length ≤ 1)
    ∧ (∀ (cfg : AbsorptionConfig) (st : SimpleState) (n bv av : ℚ) (bk : Book),
        ((check_and_act_simple cfg st n bv av bk).2).length ≤ 1) := by
  refine ⟨?_, ?_, ?_, ?_⟩
  · unfold check_and_act_enhanced
    rw [if_neg hcoolE]
    simp only [hbb, hba]
    split_ifs <;> rfl
  · unfold check_and_act_simple
    rw [if_neg hcoolS]
    simp only [hbb, hba]
    split_ifs <;> rfl
  · intro cfg st n bv av bk
    unfold check_and_act_enhanced
    split_ifs <;> cases bk.best_bid_price <;> cases bk.best_ask_price <;> simp
  · intro cfg st n bv av bk
    unfold check_and_act_simple
    split_ifs <;> cases bk.best_bid_price <;> cases bk.best_ask_price <;> simp

/-- Witness for C1 at the spec's concrete scenario: bid volume 12, ask volume 3,
minimum 10 — the filtered variant sells 1 at the best bid 100. -/
theorem C1_single_intent_selection_witness :
    (check_and_act_enhanced ⟨10, 20, 5, 10, 1⟩ ⟨[], [], [], [], 0, [], 0, none⟩ 100
        (12, [100]) (3, []) ⟨[⟨100, [⟨100, 5⟩]⟩], [⟨101, [⟨101, 5⟩]⟩]⟩).2
      = [⟨OrderSide.SELL, 100, 1⟩] := by
  have h := C1_single_intent_selection ⟨10, 20, 5, 10, 1⟩ ⟨10, 3, 10, 1 / 10, 1000⟩
    ⟨[], [], [], [], 0, [], 0, none⟩ ⟨[], [], 0⟩ 100 12 3 [100] []
    ⟨[⟨100, [⟨100, 5⟩]⟩], [⟨101, [⟨101, 5⟩]⟩]⟩ 100 101
    (by norm_num) (by norm_num) rfl rfl
  rw [h.1, if_pos (by norm_num)]

/-- C6: a price enters the liquidity-area list exactly when some monitored level
at that price holds total quantity strictly above the threshold (equality is
excluded), and `identify_liquidity_areas` replaces both lists from the current
book alone, never merging with the previous cycle's lists. -/
theorem C6_liquidity_area_iff
    (cfg : EnhancedAbsorptionConfig) (st : EnhancedState) (b : Book)
    (levels : List BookLevel) (m : ℕ) (t p : ℚ) (lv : BookLevel)
    (hn : ((levels.take m).map (fun l => l.price)).Nodup)
    (hlv : lv ∈ levels.take m)
    (hcomplete : ¬ (b.bids = [] ∨ b.asks = [])) :
    (p ∈ identify_areas levels m t ↔
      ∃ l ∈ levels.take m, l.price = p ∧ t < levelTotalSize l)
    ∧ (levelTotalSize lv = t → lv.price ∉ identify_areas levels m t)
    ∧ (identify_liquidity_areas cfg st (some b)).bid_liquidity_areas
        = identify_areas b.bids cfg.monitor_levels cfg.liquidity_threshold
    ∧ (identify_liquidity_areas cfg st (some b)).ask_liquidity_areas
        = identify_areas b.asks cfg.monitor_levels cfg.liquidity_threshold := by
  refine ⟨identify_areas_mem levels m t p, ?_, ?_, ?_⟩
  · intro heq hmem
    obtain ⟨l, hl, hlp, hlt⟩ := (identify_areas_mem levels m t lv.price).mp hmem
    have : l = lv := List.inj_on_of_nodup_map hn hl hlv hlp
    rw [this, heq] at hlt
    exact lt_irrefl t hlt
  · unfold identify_liquidity_areas
    dsimp only
    rw [if_neg hcomplete]
  · unfold identify_liquidity_areas
    dsimp only
    rw [if_neg hcomplete]

/-- Witness for C6: quantity 21 at price 99 is included, quantity exactly 20 at
price 100 is excluded, at threshold 20. -/
theorem C6_liquidity_area_iff_witness :
    ((99 : ℚ) ∈ identify_areas [⟨100, [⟨100, 20⟩]⟩, ⟨99, [⟨99, 21⟩]⟩] 5 20 ↔
      ∃ l ∈ ([⟨100, [⟨100, 20⟩]⟩, ⟨99, [⟨99, 21⟩]⟩] : List BookLevel).take 5,
        l.price = 99 ∧ 20 < levelTotalSize l)
    ∧ (100 : ℚ) ∉ identify_areas [⟨100, [⟨100, 20⟩]⟩, ⟨99, [⟨99, 21⟩]⟩] 5 20 := by
  have h := C6_liquidity_area_iff ⟨10, 20, 5, 10, 1⟩ ⟨[], [], [], [], 0, [], 0, none⟩
    ⟨[⟨100, [⟨100, 20⟩]⟩], [⟨101, [⟨101, 5⟩]⟩]⟩
    [⟨100, [⟨100, 20⟩]⟩, ⟨99, [⟨99, 21⟩]⟩] 5 20 99 ⟨100, [⟨100, 20⟩]⟩
    (by decide) (by decide) (by decide)
  exact ⟨h.1, h.2.1 (by norm_num [levelTotalSize])⟩

/-- C8: an absent book or an empty side makes a whole evaluation a silent no-op
in both variants, and an absent best price silently suppresses the triggered
decision branch: no intent, no timestamp or counter change, no error. -/
theorem C8_incomplete_book_skipped
    (cfgS : AbsorptionConfig) (cfgE : EnhancedAbsorptionConfig)
    (stS : SimpleState) (stE : EnhancedState) (now : ℚ) (b : Book)
    (hempty : b.bids = [] ∨ b.asks = [])
    (bidV askV : ℚ) (bidE askE : ℚ × List ℚ) (bk : Book)
    (hbb : bk.best_bid_price = none) (hba : bk.best_ask_price = none) :
    check_for_absorption_simple cfgS stS (some b) now = (stS, [])
    ∧ check_for_absorption_simple cfgS stS none now = (stS, [])
    ∧ check_for_absorption_enhanced cfgE stE (some b) now = (stE, [])
    ∧ check_for_absorption_enhanced cfgE stE none now = (stE, [])
    ∧ (check_and_act_simple cfgS stS now bidV askV bk).2 = []
    ∧ (check_and_act_simple cfgS stS now bidV askV bk).1.last_trade_timestamp
        = stS.last_trade_timestamp
    ∧ (check_and_act_enhanced cfgE stE now bidE askE bk).2 = []
    ∧ (check_and_act_enhanced cfgE stE now bidE askE bk).1.last_trade_timestamp
        = stE.last_trade_timestamp
    ∧ (check_and_act_enhanced cfgE stE now bidE askE bk).1.trades_taken
        = stE.trades_taken := by
  refine ⟨?_, rfl, ?_, rfl, ?_, ?_, ?_, ?_, ?_⟩
  · unfold check_for_absorption_simple
    dsimp only
    rw [if_pos hempty]
  · unfold check_for_absorption_enhanced
    dsimp only
    rw [if_pos hempty]
  all_goals
    first
      | (unfold check_and_act_simple
         simp only [hbb, hba]
         split_ifs <;> rfl)
      | (unfold check_and_act_enhanced
         simp only [hbb, hba]
         split_ifs <;> rfl)

/-- Witness for C8: a book with an empty bid side is skipped whole, and a book
with no best prices suppresses the triggered branch. -/
theorem C8_incomplete_book_skipped_witness :
    check_for_absorption_simple ⟨10, 3, 10, 1 / 10, 1000⟩ ⟨[(100, 5)], [(101, 5)], 0⟩
        (some ⟨[], [⟨101, [⟨101, 5⟩]⟩]⟩) 100 = (⟨[(100, 5)], [(101, 5)], 0⟩, [])
    ∧ (check_and_act_simple ⟨10, 3, 10, 1 / 10, 1000⟩ ⟨[(100, 5)], [(101, 5)], 0⟩ 100
        1000 0 ⟨[], []⟩).2 = [] := by
  have h := C8_incomplete_book_skipped ⟨10, 3, 10, 1 / 10, 1000⟩ ⟨10, 20, 5, 10, 1⟩
    ⟨[(100, 5)], [(101, 5)], 0⟩ ⟨[], [], [], [], 0, [], 0, none⟩ 100
    ⟨[], [⟨101, [⟨101, 5⟩]⟩]⟩ (by simp) 1000 0 (0, []) (0, []) ⟨[], []⟩ rfl rfl
  exact ⟨h.1, h.2.2.2.2.1⟩

/-- C3 counterexample: a level at price 100 holding two orders of sizes 2 and 3.
The unfiltered variant's extractor records quantity 3 (the last order's size),
not the exact sum 5 of the constituent order sizes. -/
theorem C3_counterexample :
    lookup (extract_levels_simple [⟨100, [⟨100, 2⟩, ⟨100, 3⟩]⟩]) 100 = some 3
    ∧ levelTotalSize ⟨100, [⟨100, 2⟩, ⟨100, 3⟩]⟩ = 5
    ∧ lookup (extract_levels_simple [⟨100, [⟨100, 2⟩, ⟨100, 3⟩]⟩]) 100
        ≠ some (levelTotalSize ⟨100, [⟨100, 2⟩, ⟨100, 3⟩]⟩) := by
  refine ⟨?_, ?_, ?_⟩
  · simp [extract_levels_simple, dictInsert, lookup]
  · norm_num [levelTotalSize]
  · norm_num [extract_levels_simple, dictInsert, lookup, levelTotalSize]

/-- C3 amended: under distinct level prices (and orders carrying their level's
price), the liquidity-filtered variant's extractor is the in-order list of
(price, exact sum of order sizes) pairs with the matching lookups, while the
unfiltered variant's extractor records at each price the size of the LAST
resting order at that level, which equals the sum only for single-order
levels. -/
theorem C3_extractor_amended (levels : List BookLevel)
    (hn : (levels.map (fun lv => lv.price)).Nodup)
    (hcoh : ∀ lv ∈ levels, ∀ o ∈ lv.orders, o.price = lv.price) :
    extract_levels_enhanced levels = levels.map (fun lv => (lv.price, levelTotalSize lv))
    ∧ (∀ lv ∈ levels, lookup (extract_levels_enhanced levels) lv.price
        = some (levelTotalSize lv))
    ∧ (∀ lv ∈ levels, lookup (extract_levels_simple levels) lv.price
        = lv.orders.getLast?.map (fun o => o.size)) :=
  ⟨extract_levels_enhanced_eq levels hn,
   fun lv h => extract_levels_enhanced_lookup levels hn lv h,
   fun lv h => extract_levels_simple_lookup levels hcoh hn lv h⟩

/-- Witness for the amended C3 on the counterexample level: the filtered
extractor records the sum 5, the unfiltered one the last order's size 3. -/
theorem C3_extractor_amended_witness :
    lookup (extract_levels_enhanced [⟨100, [⟨100, 2⟩, ⟨100, 3⟩]⟩]) 100 = some 5
    ∧ lookup (extract_levels_simple [⟨100, [⟨100, 2⟩, ⟨100, 3⟩]⟩]) 100 = some 3 := by
  have h := C3_extractor_amended [⟨100, [⟨100, 2⟩, ⟨100, 3⟩]⟩] (by decide) (by decide)
  constructor
  · have h2 := h.2.1 ⟨100, [⟨100, 2⟩, ⟨100, 3⟩]⟩ (by simp)
    rw [h2]
    norm_num [levelTotalSize]
  · have h3 := h.2.2 ⟨100, [⟨100, 2⟩, ⟨100, 3⟩]⟩ (by simp)
    rw [h3]
    simp

/-- C7 counterexample: the unfiltered variant runs an evaluation cycle on every
inbound event — here two events whose timestamps are 1 nanosecond apart both
evaluate, far less than 1 second apart. -/
theorem C7_counterexample :
    (on_order_book_deltas_simple ⟨10, 3, 10, 1 / 10, 1000⟩ ⟨[], [], 0⟩ [(0 : ℤ)]
        (some ⟨[⟨100, [⟨100, 5⟩]⟩], [⟨101, [⟨101, 5⟩]⟩]⟩) 100).2.2 = true
    ∧ (on_order_book_deltas_simple ⟨10, 3, 10, 1 / 10, 1000⟩
        ((on_order_book_deltas_simple ⟨10, 3, 10, 1 / 10, 1000⟩ ⟨[], [], 0⟩ [(0 : ℤ)]
          (some ⟨[⟨100, [⟨100, 5⟩]⟩], [⟨101, [⟨101, 5⟩]⟩]⟩) 100).1) [(1 : ℤ)]
        (some ⟨[⟨100, [⟨100, 5⟩]⟩], [⟨101, [⟨101, 5⟩]⟩]⟩) 100).2.2 = true
    ∧ ((1 : ℤ) - 0 < 1000000000) :=
  ⟨rfl, rfl, by decide⟩

/-- C7 amended: only the liquidity-filtered variant rate-limits evaluation —
whenever it evaluates, at least 1 second (10^9 ns) of event time has passed
since the last recorded check — while the unfiltered variant evaluates on every
inbound book-update event unconditionally. -/
theorem C7_rate_limit_amended
    (cfg : EnhancedAbsorptionConfig) (st : EnhancedState) (ts : List ℤ)
    (book : Option Book) (now : ℚ) (t1 t2 : ℤ)
    (hlast : st.last_check_time = some t1) (hhead : ts.head? = some t2)
    (heval : (on_order_book_deltas_enhanced cfg st ts book now).2.2 = true) :
    1000000000 ≤ t2 - t1
    ∧ ∀ (cfgS : AbsorptionConfig) (stS : SimpleState) (tsS : List ℤ)
        (bookS : Option Book) (nowS : ℚ),
        (on_order_book_deltas_simple cfgS stS tsS bookS nowS).2.2 = true := by
  constructor
  · unfold on_order_book_deltas_enhanced at heval
    simp only [hhead, hlast] at heval
    split at heval
    next hdec => exact of_decide_eq_true hdec
    next => simp at heval
  · intro cfgS stS tsS bookS nowS
    rfl

/-- Witness for the amended C7: a check recorded at event time 0 and an
evaluation at event time 1.5 seconds. -/
theorem C7_rate_limit_amended_witness :
    (1000000000 : ℤ) ≤ 1500000000 - 0
    ∧ (on_order_book_deltas_simple ⟨10, 3, 10, 1 / 10, 1000⟩ ⟨[], [], 0⟩ []
        none 0).2.2 = true := by
  have h := C7_rate_limit_amended ⟨10, 20, 5, 10, 1⟩
    ⟨[], [], [], [], 0, [], 0, some 0⟩ [(1500000000 : ℤ)] none 100 0 1500000000
    rfl rfl rfl
  exact ⟨h.1, h.2 ⟨10, 3, 10, 1 / 10, 1000⟩ ⟨[], [], 0⟩ [] none 0⟩

/-! Frame lemmas for evaluations that submit no order. -/

theorem check_and_act_simple_frame (cfg : AbsorptionConfig) (st : SimpleState)
    (now bv av : ℚ) (bk : Book)
    (h : (check_and_act_simple cfg st now bv av bk).2 = []) :
    (check_and_act_simple cfg st now bv av bk).1.last_trade_timestamp
      = st.last_trade_timestamp := by
  unfold check_and_act_simple at h ⊢
  split_ifs at h ⊢
  · rfl
  · cases hb : bk.best_bid_price with
    | none => rfl
    | some p => rw [hb] at h; simp at h
  · cases ha : bk.best_ask_price with
    | none => rfl
    | some p => rw [ha] at h; simp at h
  · rfl

theorem check_and_act_enhanced_frame (cfg : EnhancedAbsorptionConfig)
    (st : EnhancedState) (now : ℚ) (bv av : ℚ × List ℚ) (bk : Book)
    (h : (check_and_act_enhanced cfg st now bv av bk).2 = []) :
    (check_and_act_enhanced cfg st now bv av bk).1.last_trade_timestamp
        = st.last_trade_timestamp
    ∧ (check_and_act_enhanced cfg st now bv av bk).1.trades_taken
        = st.trades_taken := by
  unfold check_and_act_enhanced at h ⊢
  split_ifs at h ⊢
  · exact ⟨rfl, rfl⟩
  · cases hb : bk.best_bid_price with
    | none => exact ⟨rfl, rfl⟩
    | some p => rw [hb] at h; simp at h
  · cases ha : bk.best_ask_price with
    | none => exact ⟨rfl, rfl⟩
    | some p => rw [ha] at h; simp at h
  · exact ⟨rfl, rfl⟩

theorem check_for_absorption_simple_frame (cfg : AbsorptionConfig)
    (st : SimpleState) (book : Option Book) (now : ℚ)
    (h : (check_for_absorption_simple cfg st book now).2 = []) :
    (check_for_absorption_simple cfg st book now).1.last_trade_timestamp
      = st.last_trade_timestamp := by
  unfold check_for_absorption_simple at h ⊢
  cases book with
  | none => rfl
  | some b =>
      dsimp only at h ⊢
      split_ifs at h ⊢
      · rfl
      · exact check_and_act_simple_frame cfg st now _ _ b h
      · rfl

theorem check_for_absorption_enhanced_frame (cfg : EnhancedAbsorptionConfig)
    (st : EnhancedState) (book : Option Book) (now : ℚ)
    (h : (check_for_absorption_enhanced cfg st book now).2 = []) :
    (check_for_absorption_enhanced cfg st book now).1.last_trade_timestamp
        = st.last_trade_timestamp
    ∧ (check_for_absorption_enhanced cfg st book now).1.trades_taken
        = st.trades_taken := by
  unfold check_for_absorption_enhanced at h ⊢
  cases book with
  | none => exact ⟨rfl, rfl⟩
  | some b =>
      dsimp only at h ⊢
      split_ifs at h ⊢
      · exact ⟨rfl, rfl⟩
      · exact check_and_act_enhanced_frame cfg st now _ _ b h
      · exact ⟨rfl, rfl⟩

/-- C10: an evaluation that submits no order — whatever the cause — leaves the
last-trade timestamp unchanged in both variants, and the trades-taken counter
unchanged in the liquidity-filtered variant; the cooldown window restarts only
on an actual submission. -/
theorem C10_no_order_frame
    (cfgS : AbsorptionConfig) (stS : SimpleState) (bookS : Option Book) (nowS : ℚ)
    (cfgE : EnhancedAbsorptionConfig) (stE : EnhancedState) (bookE : Option Book)
    (nowE : ℚ)
    (hS : (check_for_absorption_simple cfgS stS bookS nowS).2 = [])
    (hE : (check_for_absorption_enhanced cfgE stE bookE nowE).2 = []) :
    (check_for_absorption_simple cfgS stS bookS nowS).1.last_trade_timestamp
      = stS.last_trade_timestamp
    ∧ (check_for_absorption_enhanced cfgE stE bookE nowE).1.last_trade_timestamp
      = stE.last_trade_timestamp
    ∧ (check_for_absorption_enhanced cfgE stE bookE nowE).1.trades_taken
      = stE.trades_taken :=
  ⟨check_for_absorption_simple_frame cfgS stS bookS nowS hS,
   (check_for_absorption_enhanced_frame cfgE stE bookE nowE hE).1,
   (check_for_absorption_enhanced_frame cfgE stE bookE nowE hE).2⟩

/-- Witness for C10: evaluations on an absent book submit nothing and leave the
timestamp (and counter) untouched. -/
theorem C10_no_order_frame_witness :
    (check_for_absorption_simple ⟨10, 3, 10, 1 / 10, 1000⟩ ⟨[], [], 7⟩ none
        100).1.last_trade_timestamp = 7
    ∧ (check_for_absorption_enhanced ⟨10, 20, 5, 10, 1⟩
        ⟨[], [], [], [], 7, [], 3, none⟩ none 100).1.trades_taken = 3 := by
  have h := C10_no_order_frame ⟨10, 3, 10, 1 / 10, 1000⟩ ⟨[], [], 7⟩ none 100
    ⟨10, 20, 5, 10, 1⟩ ⟨[], [], [], [], 7, [], 3, none⟩ none 100 rfl rfl
  exact ⟨h.1, h.2.2⟩

end OrderlyEdge
